import Mathlib

/-!
Shallow embedding of the "lite" paginated reader of this repository
(src/screens/LiteChapterReaderScreen.tsx, src/hooks/useVolumeScroll.ts,
src/services/storage.ts), together with proofs about the embedded
definitions.

Conventions:
* JavaScript indices and pixel offsets are embedded as integers or
  naturals as appropriate; the aspect-ratio and volume-level
  computations, which are fractional in the source, are embedded as exact
  rationals.
* `Math.max(...arr, 0)` and `Math.min(...arr, 0)` over a spread array are
  embedded as folds of `max` / `min` over a list with initial value `0`.
* React state updates and event handlers are embedded as explicit state
  passing: a `ReaderState` record and a step function over reader events.
-/

namespace LiteReader

/-- Constant `INITIAL_BATCH_SIZE = 5` (LiteChapterReaderScreen.tsx line 40). -/
def INITIAL_BATCH_SIZE : ℤ := 5

/-- Constant `LOAD_AHEAD_COUNT = 3` (line 41). -/
def LOAD_AHEAD_COUNT : ℤ := 3

/-- Constant `PRELOAD_AHEAD_COUNT = 5` (line 42). -/
def PRELOAD_AHEAD_COUNT : ℕ := 5

/-- Constant `TALL_IMAGE_THRESHOLD = 4` (line 44), compared against the rational aspect ratio. -/
def TALL_IMAGE_THRESHOLD : ℚ := 4

/-- Constant `CHUNK_HEIGHT_PX = CHUNK_HEIGHT_CM * PIXELS_PER_CM = 5 * 38 = 190` (lines 45-47). -/
def CHUNK_HEIGHT_PX : ℕ := 5 * 38

/-- The `ChunkData` record (lines 63-70). Source-pixel fields are naturals. -/
structure ChunkData where
  chunkIndex : ℕ
  totalChunks : ℕ
  startY : ℕ
  chunkHeight : ℕ
  originalWidth : ℕ
  originalHeight : ℕ
deriving Repr, DecidableEq, Inhabited

/-- Body of one iteration of the `for` loop in `calculateChunks` (lines 261-273):
`startY = i * CHUNK_HEIGHT_PX`, `remainingHeight = imgHeight - startY`,
`chunkHeight = Math.min(CHUNK_HEIGHT_PX, remainingHeight)`. -/
def mkChunk (imgWidth imgHeight chunkCount i : ℕ) : ChunkData :=
  { chunkIndex := i
    totalChunks := chunkCount
    startY := i * CHUNK_HEIGHT_PX
    chunkHeight := min CHUNK_HEIGHT_PX (imgHeight - i * CHUNK_HEIGHT_PX)
    originalWidth := imgWidth
    originalHeight := imgHeight }

/-- Function `calculateChunks` (lines 254-277): when the aspect ratio
`imgHeight / imgWidth` is below `TALL_IMAGE_THRESHOLD` return no chunks;
otherwise build `chunkCount = Math.ceil(imgHeight / CHUNK_HEIGHT_PX)` chunks. -/
def calculateChunks (imgWidth imgHeight : ℕ) : List ChunkData :=
  if ((imgHeight : ℚ) / (imgWidth : ℚ)) < TALL_IMAGE_THRESHOLD then []
  else
    let chunkCount : ℕ := (⌈(imgHeight : ℚ) / (CHUNK_HEIGHT_PX : ℚ)⌉).toNat
    (List.range chunkCount).map (mkChunk imgWidth imgHeight chunkCount)

/-- The `onLoad` handler (lines 365-384) calls `setIsTallImage(true)` exactly when
`calculateChunks` returned a non-empty list; otherwise the flag stays `false`. -/
def isTallImage (imgWidth imgHeight : ℕ) : Bool :=
  decide (0 < (calculateChunks imgWidth imgHeight).length)

/-- The ceiling count used by `calculateChunks`, rephrased in natural arithmetic. -/
theorem chunkCount_eq (h : ℕ) :
    (⌈(h : ℚ) / (CHUNK_HEIGHT_PX : ℚ)⌉).toNat
      = (h + CHUNK_HEIGHT_PX - 1) / CHUNK_HEIGHT_PX := by
  have hC : CHUNK_HEIGHT_PX = 190 := by norm_num [CHUNK_HEIGHT_PX]
  rw [hC]
  set n : ℕ := (h + 190 - 1) / 190 with hn
  have hdm := Nat.div_add_mod (h + 190 - 1) 190
  have hm : (h + 190 - 1) % 190 < 190 := Nat.mod_lt _ (by norm_num)
  rw [← hn] at hdm
  have h2 : h ≤ n * 190 := by omega
  have h1' : n * 190 + 1 ≤ h + 190 := by omega
  have hceil : ⌈(h : ℚ) / ((190 : ℕ) : ℚ)⌉ = (n : ℤ) := by
    rw [Int.ceil_eq_iff]
    refine ⟨?_, ?_⟩
    · rw [lt_div_iff₀ (by norm_num)]
      have hcast : (n : ℚ) * 190 + 1 ≤ (h : ℚ) + 190 := by exact_mod_cast h1'
      push_cast
      linarith
    · rw [div_le_iff₀ (by norm_num)]
      have hcast : (h : ℚ) ≤ (n : ℚ) * 190 := by exact_mod_cast h2
      push_cast
      linarith
  rw [hceil]
  simp

/-- Telescoping sum of the chunk heights: the running total of
`min c (h - i * c)` over the first `k` chunk slots is `min h (k * c)`. -/
theorem sum_chunk_heights (h : ℕ) (k : ℕ) :
    ((List.range k).map (fun i => min CHUNK_HEIGHT_PX (h - i * CHUNK_HEIGHT_PX))).sum
      = min h (k * CHUNK_HEIGHT_PX) := by
  induction k with
  | zero => simp
  | succ k ih =>
    rw [List.range_succ, List.map_append, List.sum_append, ih]
    simp only [List.map_cons, List.map_nil, List.sum_cons, List.sum_nil]
    have hC : CHUNK_HEIGHT_PX = 190 := by norm_num [CHUNK_HEIGHT_PX]
    rw [hC]
    omega

/-- Evaluating the chunk list built from `List.range` at a position `k < n`. -/
theorem chunks_getD (w h n k : ℕ) (hk : k < n) (d : ChunkData) :
    ((List.range n).map (mkChunk w h n)).getD k d = mkChunk w h n k := by
  rw [List.getD_eq_getElem _ _ (by simpa using hk)]
  simp

/-- In the non-tall branch `calculateChunks` is the mapped range, with the
ceiling count rewritten to natural arithmetic. -/
theorem calculateChunks_tall (w h : ℕ)
    (hnot : ¬ ((h : ℚ) / (w : ℚ) < TALL_IMAGE_THRESHOLD)) :
    calculateChunks w h
      = (List.range ((h + CHUNK_HEIGHT_PX - 1) / CHUNK_HEIGHT_PX)).map
          (mkChunk w h ((h + CHUNK_HEIGHT_PX - 1) / CHUNK_HEIGHT_PX)) := by
  simp only [calculateChunks, if_neg hnot, chunkCount_eq]

/-- C2: for every intrinsic size `(w, h)` with `w > 0` and `h > 0`: if the
aspect ratio `h/w` is at least the tall-image threshold then the chunk list is
non-empty, starts at `startY = 0`, has contiguous non-overlapping
`[startY, startY + chunkHeight)` ranges, the chunk heights sum to exactly `h`,
every chunk except possibly the last has height `CHUNK_HEIGHT_PX` and every
chunk has positive height at most `CHUNK_HEIGHT_PX`; if the ratio is below the
threshold the chunk list is empty. -/
theorem calculateChunks_correct (w h : ℕ) (hw : 0 < w) (hh : 0 < h) :
    (TALL_IMAGE_THRESHOLD ≤ (h : ℚ) / (w : ℚ) →
      calculateChunks w h ≠ [] ∧
      ((calculateChunks w h).getD 0 default).startY = 0 ∧
      (∀ k, k + 1 < (calculateChunks w h).length →
        ((calculateChunks w h).getD k default).startY
            + ((calculateChunks w h).getD k default).chunkHeight
          = ((calculateChunks w h).getD (k + 1) default).startY) ∧
      ((calculateChunks w h).map ChunkData.chunkHeight).sum = h ∧
      (∀ k, k + 1 < (calculateChunks w h).length →
        ((calculateChunks w h).getD k default).chunkHeight = CHUNK_HEIGHT_PX) ∧
      (∀ k, k < (calculateChunks w h).length →
        0 < ((calculateChunks w h).getD k default).chunkHeight ∧
        ((calculateChunks w h).getD k default).chunkHeight ≤ CHUNK_HEIGHT_PX)) ∧
    ((h : ℚ) / (w : ℚ) < TALL_IMAGE_THRESHOLD → calculateChunks w h = []) := by
  have hC : CHUNK_HEIGHT_PX = 190 := by norm_num [CHUNK_HEIGHT_PX]
  constructor
  · intro hge
    have hnot : ¬ ((h : ℚ) / (w : ℚ) < TALL_IMAGE_THRESHOLD) := not_lt.mpr hge
    have hcs := calculateChunks_tall w h hnot
    set n : ℕ := (h + CHUNK_HEIGHT_PX - 1) / CHUNK_HEIGHT_PX with hn
    have hn190 : n = (h + 190 - 1) / 190 := by rw [hn, hC]
    have hnpos : 0 < n := by omega
    have hle : h ≤ n * 190 := by omega
    have hlt : (n - 1) * 190 < h := by omega
    have hlen : (calculateChunks w h).length = n := by
      rw [hcs]; simp
    refine ⟨?_, ?_, ?_, ?_, ?_, ?_⟩
    · rw [hcs]
      simp only [ne_eq, List.map_eq_nil_iff, List.range_eq_nil]
      omega
    · rw [hcs, chunks_getD w h n 0 hnpos]
      simp [mkChunk]
    · intro k hk
      rw [hlen] at hk
      rw [hcs, chunks_getD w h n k (by omega), chunks_getD w h n (k + 1) (by omega)]
      simp only [mkChunk, hC]
      have : (k + 1) * 190 ≤ (n - 1) * 190 := Nat.mul_le_mul_right _ (by omega)
      omega
    · rw [hcs, List.map_map]
      have hcomp : (ChunkData.chunkHeight ∘ mkChunk w h n)
          = fun i => min CHUNK_HEIGHT_PX (h - i * CHUNK_HEIGHT_PX) := by
        funext i; simp [mkChunk]
      rw [hcomp, sum_chunk_heights]
      rw [hC]
      omega
    · intro k hk
      rw [hlen] at hk
      rw [hcs, chunks_getD w h n k (by omega)]
      simp only [mkChunk, hC]
      have : (k + 1) * 190 ≤ (n - 1) * 190 := Nat.mul_le_mul_right _ (by omega)
      omega
    · intro k hk
      rw [hlen] at hk
      rw [hcs, chunks_getD w h n k (by omega)]
      simp only [mkChunk, hC]
      have : k * 190 ≤ (n - 1) * 190 := Nat.mul_le_mul_right _ (by omega)
      omega
  · intro hlt
    simp only [calculateChunks, if_pos hlt]

/-- Witness for `calculateChunks_correct` at the concrete size 100 × 800
(ratio 8.0): hypotheses discharged concretely, heights sum to 800. -/
theorem calculateChunks_correct_witness :
    ((calculateChunks 100 800).map ChunkData.chunkHeight).sum = 800 :=
  ((calculateChunks_correct 100 800 (by norm_num) (by norm_num)).1
    (by norm_num [TALL_IMAGE_THRESHOLD])).2.2.2.1

/-- Helper: any intrinsic size whose aspect ratio is exactly 4.0 lands in the
tall branch of `calculateChunks` and yields a non-empty chunk list. -/
theorem tall_at_ratio_four (w h : ℕ) (hw : 0 < w)
    (hr : (h : ℚ) / (w : ℚ) = 4) :
    isTallImage w h = true ∧ calculateChunks w h ≠ [] := by
  have hnot : ¬ ((h : ℚ) / (w : ℚ) < TALL_IMAGE_THRESHOLD) := by
    rw [hr]; simp [TALL_IMAGE_THRESHOLD]
  have hwq : ((w : ℚ)) ≠ 0 := by positivity
  have hq : (h : ℚ) = 4 * (w : ℚ) := by
    field_simp at hr
    linarith
  have hhw : h = 4 * w := by exact_mod_cast hq
  have hh : 0 < h := by omega
  have hcs := calculateChunks_tall w h hnot
  have hC : CHUNK_HEIGHT_PX = 190 := by norm_num [CHUNK_HEIGHT_PX]
  have hne : calculateChunks w h ≠ [] := by
    rw [hcs]
    simp only [ne_eq, List.map_eq_nil_iff, List.range_eq_nil]
    rw [hC]
    omega
  refine ⟨?_, hne⟩
  simp only [isTallImage, decide_eq_true_eq, List.length_pos]
  exact hne

/-- C4 counterexample: at intrinsic size 100 × 400 the aspect ratio is exactly
4.0, yet the code classifies the image as tall and produces chunks (the
non-tall test is the strict `aspectRatio < TALL_IMAGE_THRESHOLD`, so the
boundary ratio falls in the tall branch), contradicting the claim that a ratio
of exactly 4.0 yields `isTallImage = false` and no chunks. -/
theorem ratio_four_counterexample :
    (400 : ℚ) / (100 : ℚ) = 4
      ∧ isTallImage 100 400 = true
      ∧ calculateChunks 100 400 ≠ [] :=
  ⟨by norm_num,
    (tall_at_ratio_four 100 400 (by norm_num) (by norm_num)).1,
    (tall_at_ratio_four 100 400 (by norm_num) (by norm_num)).2⟩

/-- C4 (amended): for every intrinsic size `(w, h)` with `w > 0` and `h/w`
exactly equal to 4.0, `isTallImage` is `true` and chunks are produced: the
threshold comparison is the strict `aspectRatio < threshold` guarding the
non-tall branch, so the boundary value 4.0 is classified as tall. -/
theorem ratio_four_is_tall (w h : ℕ) (hw : 0 < w)
    (hr : (h : ℚ) / (w : ℚ) = 4) :
    isTallImage w h = true ∧ calculateChunks w h ≠ [] :=
  tall_at_ratio_four w h hw hr

/-- Witness for `ratio_four_is_tall` at the concrete size 100 × 400. -/
theorem ratio_four_is_tall_witness :
    isTallImage 100 400 = true ∧ calculateChunks 100 400 ≠ [] :=
  ratio_four_is_tall 100 400 (by norm_num) (by norm_num)

/-- Embedding of `Math.min(...l, d)` over a spread array: fold of `min` with initial `d`. -/
def listMinD (l : List ℤ) (d : ℤ) : ℤ := l.foldr min d

/-- Embedding of `Math.max(...l, d)` over a spread array: fold of `max` with initial `d`. -/
def listMaxD (l : List ℤ) (d : ℤ) : ℤ := l.foldr max d

/-- Minimum of a non-empty list (the quantity named `minVisible` by the claim:
the minimum of the visible-index set alone). -/
def listMin (l : List ℤ) : ℤ := l.foldr min (l.headD 0)

/-- Maximum of a non-empty list (the quantity named `maxVisible` by the claim:
the maximum of the visible-index set alone). -/
def listMax (l : List ℤ) : ℤ := l.foldr max (l.headD 0)

/-- Function `shouldLoadPage` (lines 699-707): early `true` when `index < loadedBatchEnd`;
otherwise `maxVisible = Math.max(...visibleArray, 0)`,
`minVisible = Math.min(...visibleArray, 0)` and the window test
`index >= minVisible - 2 && index <= maxVisible + LOAD_AHEAD_COUNT`.
`visibleIndices` is `Array.from` of the visible-index set. -/
def shouldLoadPage (loadedBatchEnd : ℤ) (visibleIndices : List ℤ)
    (index : ℤ) : Bool :=
  if index < loadedBatchEnd then true
  else
    let maxVisible := listMaxD visibleIndices 0
    let minVisible := listMinD visibleIndices 0
    decide (minVisible - 2 ≤ index ∧ index ≤ maxVisible + LOAD_AHEAD_COUNT)

/-- The eligibility formula exactly as claim C1 words it, with `minVisible` and
`maxVisible` the minimum and maximum of the visible-index set itself. -/
def claimEligible (loadedBatchBoundary : ℤ) (visibleIndices : List ℤ)
    (i : ℤ) : Prop :=
  i < loadedBatchBoundary
    ∨ (listMin visibleIndices - 2 ≤ i
        ∧ i ≤ listMax visibleIndices + LOAD_AHEAD_COUNT)

instance (b : ℤ) (l : List ℤ) (i : ℤ) : Decidable (claimEligible b l i) := by
  unfold claimEligible
  exact inferInstance

/-- C1 counterexample: with `loadedBatchEnd = 0`, visible set `{10}` and index
`3`, the code loads the page (its `minVisible` includes `0` in the `Math.min`
spread, so the lower bound is `-2`), while the claim's formula — minimum over
the visible set alone, lower bound `10 - 2 = 8` — deems index 3 ineligible.
Hence the claimed equivalence fails. -/
theorem shouldLoadPage_claim_counterexample :
    shouldLoadPage 0 [10] 3 = true ∧ ¬ claimEligible 0 [10] 3 := by
  exact ⟨by decide, by decide⟩

/-- C1 (amended): for every index, boundary, and non-empty visible set, the
page is eligible (`shouldLoadPage` returns `true`) iff `i < loadedBatchEnd`,
or `minVisible - 2 ≤ i ≤ maxVisible + LOAD_AHEAD_COUNT`, where `minVisible`
is the minimum of the visible-index set together with `0` and `maxVisible` is
the maximum of the visible-index set together with `0` (as the code computes
them via `Math.min(...visibleArray, 0)` / `Math.max(...visibleArray, 0)`). -/
theorem shouldLoadPage_iff (loadedBatchEnd : ℤ) (visibleIndices : List ℤ)
    (index : ℤ) (hne : visibleIndices ≠ []) :
    shouldLoadPage loadedBatchEnd visibleIndices index = true
      ↔ index < loadedBatchEnd
        ∨ (listMinD visibleIndices 0 - 2 ≤ index
            ∧ index ≤ listMaxD visibleIndices 0 + LOAD_AHEAD_COUNT) := by
  by_cases hlt : index < loadedBatchEnd
  · simp [shouldLoadPage, hlt]
  · simp [shouldLoadPage, hlt]

/-- Witness for `shouldLoadPage_iff` at boundary 5, visible set `{1, 2}`,
index 4. -/
theorem shouldLoadPage_iff_witness :
    ([1, 2] : List ℤ) ≠ []
      ∧ (shouldLoadPage 5 [1, 2] 4 = true
          ↔ (4 : ℤ) < 5
            ∨ (listMinD [1, 2] 0 - 2 ≤ 4
                ∧ (4 : ℤ) ≤ listMaxD [1, 2] 0 + LOAD_AHEAD_COUNT)) :=
  ⟨by decide, shouldLoadPage_iff 5 [1, 2] 4 (by decide)⟩

/-- Every member of a list is bounded by the `max`-fold over the list. -/
theorem mem_le_foldr_max (l : List ℤ) (d : ℤ) (x : ℤ) (hx : x ∈ l) :
    x ≤ l.foldr max d := by
  induction l with
  | nil => cases hx
  | cons a t ih =>
    rcases List.mem_cons.mp hx with rfl | hmem
    · exact le_max_left _ _
    · exact le_trans (ih hmem) (le_max_right _ _)

/-- The `max`-fold is bounded by any upper bound of the seed and the members. -/
theorem foldr_max_le (l : List ℤ) (a c : ℤ) (ha : a ≤ c)
    (hl : ∀ x ∈ l, x ≤ c) : l.foldr max a ≤ c := by
  induction l with
  | nil => exact ha
  | cons b t ih =>
    refine max_le (hl b (by simp)) (ih ?_)
    intro x hx
    exact hl x (by simp [hx])

/-- The `min`-fold never exceeds its seed. -/
theorem foldr_min_le_seed (l : List ℤ) (d : ℤ) : l.foldr min d ≤ d := by
  induction l with
  | nil => exact le_refl d
  | cons a t ih => exact le_trans (min_le_right _ _) ih

/-- C10: because `shouldLoadPage` computes `minVisible` as
`Math.min(...visibleArray, 0)` (so `minVisible ≤ 0` always), the lower window
bound `minVisible - 2` never excludes any index: for every non-empty visible
set of non-negative indices and every index `i` with
`0 ≤ i ≤ maxVisible + LOAD_AHEAD_COUNT` (maximum over the visible set),
`shouldLoadPage` returns `true` regardless of `loadedBatchEnd` and of how far
`i` lies below the smallest visible index. -/
theorem shouldLoadPage_low_indices (loadedBatchEnd : ℤ)
    (visibleIndices : List ℤ) (index : ℤ) (hne : visibleIndices ≠ [])
    (hnn : ∀ v ∈ visibleIndices, 0 ≤ v) (h0 : 0 ≤ index)
    (hub : index ≤ listMax visibleIndices + LOAD_AHEAD_COUNT) :
    shouldLoadPage loadedBatchEnd visibleIndices index = true := by
  by_cases hlt : index < loadedBatchEnd
  · simp [shouldLoadPage, hlt]
  · simp only [shouldLoadPage, if_neg hlt, decide_eq_true_eq]
    constructor
    · have hmin : listMinD visibleIndices 0 ≤ 0 := foldr_min_le_seed _ _
      omega
    · have hhead : visibleIndices.headD 0 ∈ visibleIndices := by
        cases visibleIndices with
        | nil => exact absurd rfl hne
        | cons a t => simp
      have hmax : listMax visibleIndices ≤ listMaxD visibleIndices 0 := by
        unfold listMax listMaxD
        refine foldr_max_le _ _ _ (mem_le_foldr_max _ _ _ hhead) ?_
        intro x hx
        exact mem_le_foldr_max _ _ _ hx
      unfold listMax LOAD_AHEAD_COUNT at hub
      unfold listMaxD LOAD_AHEAD_COUNT
      unfold listMax listMaxD at hmax
      omega

/-- Witness for `shouldLoadPage_low_indices`: boundary 0, visible set `{10}`,
index 3 is loaded even though it lies far below the smallest visible index. -/
theorem shouldLoadPage_low_indices_witness :
    shouldLoadPage 0 [10] 3 = true :=
  shouldLoadPage_low_indices 0 [10] 3 (by decide) (by decide) (by decide)
    (by decide)

/-! ## The scheduler state machine

Explicit state passing for the React component state and refs, and the event
handlers that mutate them. Commands sent to the platform (the FlatList scroll
controller and the image cache) are collected as outputs. -/

/-- Outward commands: `flatListRef.current?.scrollToIndex({index})` and
`Image.prefetch` of the page at a given index (pages are identified by index;
`allPageUrls[i]` is the source of page `i`). -/
inductive Command
  | scrollToIndex (index : ℤ)
  | prefetch (index : ℤ)
deriving Repr, DecidableEq

/-- The component state and refs used by the scheduler: `pageCount` is
`allPageUrls.length`, `preloaded` is the `preloadedRef.current` seen-set,
`savedStartPage` is `savedStartPageRef.current`. -/
structure ReaderState where
  pageCount : ℕ
  loadedBatchEnd : ℤ
  visibleIndices : List ℤ
  currentPage : ℤ
  initialScrollDone : Bool
  savedStartPage : ℤ
  preloaded : List ℤ
  loading : Bool
deriving Repr, DecidableEq

/-- The `for` loop of `preloadImages` (lines 512-519), one candidate index at
a time: a candidate already in the seen-set is skipped; otherwise it is added
to the seen-set and its source is pushed onto the prefetch batch. -/
def preloadLoop (s : ReaderState) : List ℤ → ReaderState × List Command
  | [] => (s, [])
  | i :: rest =>
    if i ∈ s.preloaded then preloadLoop s rest
    else
      let next := preloadLoop { s with preloaded := i :: s.preloaded } rest
      (next.1, Command.prefetch i :: next.2)

/-- The candidate indices of the `preloadImages` loop: `i` from
`currentMax + 1` while `i <= currentMax + PRELOAD_AHEAD_COUNT` and
`i < allPageUrls.length`. -/
def preloadCandidates (pageCount : ℕ) (currentMax : ℤ) : List ℤ :=
  ((List.range PRELOAD_AHEAD_COUNT).map (fun k : ℕ => currentMax + 1 + (k : ℤ))).filter
    (fun i => decide (i < (pageCount : ℤ)))

/-- Function `preloadImages` (lines 510-523). -/
def preloadImages (s : ReaderState) (currentMax : ℤ) : ReaderState × List Command :=
  preloadLoop s (preloadCandidates s.pageCount currentMax)

/-- The batch-growth half of the visibility `useEffect` (lines 495-506):
`newBatchEnd = Math.min(N, Math.max(loadedBatchEnd, maxVisible + LOAD_AHEAD_COUNT + 1))`,
assigned only when strictly larger than the current value. -/
def growBatch (s : ReaderState) : ReaderState :=
  let maxVisible := listMaxD s.visibleIndices 0
  let newBatchEnd :=
    min (s.pageCount : ℤ) (max s.loadedBatchEnd (maxVisible + LOAD_AHEAD_COUNT + 1))
  if s.loadedBatchEnd < newBatchEnd then { s with loadedBatchEnd := newBatchEnd } else s

/-- The visibility `useEffect` (lines 492-508): no-op on an empty sequence;
otherwise `maxVisible = Math.max(...currentVisible, 0)`, the conditional
batch growth of `growBatch`, then `preloadImages(maxVisible)`. -/
def visibilityEffect (s : ReaderState) : ReaderState × List Command :=
  if s.pageCount = 0 then (s, [])
  else preloadImages (growBatch s) (listMaxD s.visibleIndices 0)

/-- The state updates of `onViewableItemsChanged` (lines 614-637) for a
non-empty viewable set: store it and set `currentPage` to the middle viewable
index (`viewableIndices[Math.floor(length / 2)]`). -/
def applyViewable (s : ReaderState) (viewable : List ℤ) : ReaderState :=
  { s with visibleIndices := viewable, currentPage := viewable.getD (viewable.length / 2) 0 }

/-- Handler `onViewableItemsChanged` (lines 614-637): when the viewable set is
non-empty, apply its state updates; the visibility effect then reruns because
`visibleIndices` changed. An empty viewable set changes nothing. -/
def onViewableItemsChanged (s : ReaderState) (viewable : List ℤ) :
    ReaderState × List Command :=
  if viewable = [] then (s, [])
  else visibilityEffect (applyViewable s viewable)

/-- Handler `onEndReached` (lines 758-762): while not at the end, grow the batch
boundary by `LOAD_AHEAD_COUNT`, clamped to the page count. -/
def onEndReached (s : ReaderState) : ReaderState × List Command :=
  if s.loadedBatchEnd < (s.pageCount : ℤ) then
    ({ s with loadedBatchEnd := min (s.pageCount : ℤ) (s.loadedBatchEnd + LOAD_AHEAD_COUNT) },
      [])
  else (s, [])

/-- The initial-scroll-restore effect (lines 477-490): guard
`!loading && allPageUrls.length > 0 && !initialScrollDone && savedStartPageRef.current > 0`;
the 100 ms timeout body then issues `scrollToIndex(savedStartPage)`, latches
`initialScrollDone`, seeds the visible window to
`[start - 1, start, start + 1].filter(i => i >= 0)` and assigns
`loadedBatchEnd = Math.max(INITIAL_BATCH_SIZE, start + LOAD_AHEAD_COUNT + 1)`
unconditionally. -/
def restoreTimeout (s : ReaderState) : ReaderState × List Command :=
  if s.loading = false ∧ 0 < s.pageCount ∧ s.initialScrollDone = false
      ∧ 0 < s.savedStartPage then
    ({ s with initialScrollDone := true
              visibleIndices :=
                [s.savedStartPage - 1, s.savedStartPage, s.savedStartPage + 1].filter
                  (fun i => decide (0 ≤ i))
              loadedBatchEnd :=
                max INITIAL_BATCH_SIZE (s.savedStartPage + LOAD_AHEAD_COUNT + 1) },
      [Command.scrollToIndex s.savedStartPage])
  else (s, [])

/-- The success path of `loadChapter` (lines 525-589): `preloadedRef` is
cleared, `savedStartPageRef` is the saved page (0 when no progress matches the
chapter); with a non-empty page list the batch boundary is seeded to
`Math.min(N, Math.max(INITIAL_BATCH_SIZE, startPage + LOAD_AHEAD_COUNT + 1))`,
the visible window to `[start - 1, start, start + 1]` filtered to valid
indices, `initialScrollDone` is reset, and the first `Math.min(3, N)` pages
are prefetched (without touching the `preloadedRef` seen-set). An empty page
list leaves the mount-time defaults in place. -/
def loadChapter (pageCount : ℕ) (startPage : ℤ) : ReaderState × List Command :=
  if 0 < pageCount then
    ({ pageCount := pageCount
       loadedBatchEnd :=
         min (pageCount : ℤ) (max INITIAL_BATCH_SIZE (startPage + LOAD_AHEAD_COUNT + 1))
       visibleIndices :=
         [startPage - 1, startPage, startPage + 1].filter
           (fun i => decide (0 ≤ i ∧ i < (pageCount : ℤ)))
       currentPage := startPage
       initialScrollDone := false
       savedStartPage := startPage
       preloaded := []
       loading := false },
      (List.range (min 3 pageCount)).map (fun i => Command.prefetch (i : ℤ)))
  else
    ({ pageCount := 0
       loadedBatchEnd := INITIAL_BATCH_SIZE
       visibleIndices := [0, 1, 2]
       currentPage := 0
       initialScrollDone := false
       savedStartPage := startPage
       preloaded := []
       loading := false },
      [])

/-- Scheduler events within one session: a viewable-items change, a rerun of
the visibility effect after a programmatic `setVisibleIndices` (from
`loadChapter` or the restore), the end-of-list trigger, and the restore
timeout. -/
inductive ReaderEvent
  | viewable (indices : List ℤ)
  | visEffect
  | endReached
  | restore
deriving Repr, DecidableEq

/-- Dispatch one event to its handler. -/
def step (s : ReaderState) : ReaderEvent → ReaderState × List Command
  | ReaderEvent.viewable l => onViewableItemsChanged s l
  | ReaderEvent.visEffect => visibilityEffect s
  | ReaderEvent.endReached => onEndReached s
  | ReaderEvent.restore => restoreTimeout s

/-- Run a sequence of events, collecting all emitted commands. -/
def run (s : ReaderState) : List ReaderEvent → ReaderState × List Command
  | [] => (s, [])
  | e :: es =>
    let r1 := step s e
    let r2 := run r1.1 es
    (r2.1, r1.2 ++ r2.2)

/-- Indices of the scroll-to-index commands in an output list. -/
def scrollTargets (cmds : List Command) : List ℤ :=
  cmds.filterMap (fun c =>
    match c with
    | Command.scrollToIndex i => some i
    | _ => none)

/-- Indices of the prefetch commands in an output list. -/
def prefetchTargets (cmds : List Command) : List ℤ :=
  cmds.filterMap (fun c =>
    match c with
    | Command.prefetch i => some i
    | _ => none)

/-- C3: the restore timeout can assign `loadedBatchEnd` a value smaller than
its current value, violating the claimed monotonicity. Concrete trace: load 20
pages with saved page 12 (boundary seeded to 16); the visibility effect runs on
the seeded window `{11, 12, 13}` and raises the boundary to
`maxVisible + LOAD_AHEAD_COUNT + 1 = 17`; the 100 ms restore timeout then
assigns `max(INITIAL_BATCH_SIZE, 12 + LOAD_AHEAD_COUNT + 1) = 16` without
taking the maximum with the current value — a decrease from 17 to 16. -/
theorem loadedBatchEnd_decrease :
    ((loadChapter 20 12).1.loadedBatchEnd = 16)
      ∧ ((step (loadChapter 20 12).1 ReaderEvent.visEffect).1.loadedBatchEnd = 17)
      ∧ ((step (step (loadChapter 20 12).1 ReaderEvent.visEffect).1
            ReaderEvent.restore).1.loadedBatchEnd = 16)
      ∧ ((step (step (loadChapter 20 12).1 ReaderEvent.visEffect).1
            ReaderEvent.restore).1.loadedBatchEnd
          < (step (loadChapter 20 12).1 ReaderEvent.visEffect).1.loadedBatchEnd) := by
  decide

/-- C5 counterexample: loading 20 pages with no saved progress seeds the
visible window to `{0, 1}`, not `{0, 1, 2}`: the seed is
`[start - 1, start, start + 1]` with `start = 0`, filtered to valid indices,
so index 2 is never in it. -/
theorem initial_window_counterexample :
    (2 : ℤ) ∉ (loadChapter 20 0).1.visibleIndices
      ∧ (loadChapter 20 0).1.visibleIndices ≠ [0, 1, 2] := by
  decide

/-- C5 (amended): loading 20 pages with no saved progress seeds
`loadedBatchEnd` to `INITIAL_BATCH_SIZE = 5` and the visible window to exactly
`{0, 1}`. -/
theorem initial_load_no_progress :
    (loadChapter 20 0).1.loadedBatchEnd = INITIAL_BATCH_SIZE
      ∧ (loadChapter 20 0).1.loadedBatchEnd = 5
      ∧ (loadChapter 20 0).1.visibleIndices = [0, 1] := by
  decide

/-! ### Supporting lemmas about the step handlers -/

/-- Lemma: `scrollTargets` distributes over command concatenation. -/
theorem scrollTargets_append (a b : List Command) :
    scrollTargets (a ++ b) = scrollTargets a ++ scrollTargets b := by
  simp [scrollTargets]

/-- Lemma: `prefetchTargets` distributes over command concatenation. -/
theorem prefetchTargets_append (a b : List Command) :
    prefetchTargets (a ++ b) = prefetchTargets a ++ prefetchTargets b := by
  simp [prefetchTargets]

/-- A prefetch command contributes its index to `prefetchTargets`. -/
theorem mem_prefetchTargets (cmds : List Command) (i : ℤ)
    (h : Command.prefetch i ∈ cmds) : i ∈ prefetchTargets cmds := by
  simp only [prefetchTargets, List.mem_filterMap]
  exact ⟨Command.prefetch i, h, rfl⟩

/-- The preload loop touches only the `preloaded` seen-set and emits no
scroll command. -/
theorem preloadLoop_core (cand : List ℤ) (s : ReaderState) :
    ((preloadLoop s cand).1.pageCount = s.pageCount
      ∧ (preloadLoop s cand).1.savedStartPage = s.savedStartPage
      ∧ (preloadLoop s cand).1.loading = s.loading
      ∧ (preloadLoop s cand).1.initialScrollDone = s.initialScrollDone
      ∧ (preloadLoop s cand).1.loadedBatchEnd = s.loadedBatchEnd
      ∧ (preloadLoop s cand).1.visibleIndices = s.visibleIndices)
      ∧ scrollTargets (preloadLoop s cand).2 = [] := by
  induction cand generalizing s with
  | nil => simp [preloadLoop, scrollTargets]
  | cons i rest ih =>
    by_cases h : i ∈ s.preloaded
    · simpa [preloadLoop, h] using ih s
    · simpa [preloadLoop, h, scrollTargets] using
        ih { s with preloaded := i :: s.preloaded }

/-- Lemma: `preloadImages` touches only the seen-set and emits no scroll command. -/
theorem preloadImages_core (s : ReaderState) (m : ℤ) :
    ((preloadImages s m).1.pageCount = s.pageCount
      ∧ (preloadImages s m).1.savedStartPage = s.savedStartPage
      ∧ (preloadImages s m).1.loading = s.loading
      ∧ (preloadImages s m).1.initialScrollDone = s.initialScrollDone
      ∧ (preloadImages s m).1.loadedBatchEnd = s.loadedBatchEnd
      ∧ (preloadImages s m).1.visibleIndices = s.visibleIndices)
      ∧ scrollTargets (preloadImages s m).2 = [] :=
  preloadLoop_core _ s

/-- Lemma: `growBatch` changes only `loadedBatchEnd`. -/
theorem growBatch_fields (s : ReaderState) :
    (growBatch s).pageCount = s.pageCount
      ∧ (growBatch s).savedStartPage = s.savedStartPage
      ∧ (growBatch s).loading = s.loading
      ∧ (growBatch s).initialScrollDone = s.initialScrollDone
      ∧ (growBatch s).visibleIndices = s.visibleIndices
      ∧ (growBatch s).preloaded = s.preloaded := by
  simp only [growBatch]
  split
  · simp
  · simp

/-- Lemma: `growBatch` never lowers the batch boundary. -/
theorem growBatch_mono (s : ReaderState) :
    s.loadedBatchEnd ≤ (growBatch s).loadedBatchEnd := by
  simp only [growBatch]
  split
  · simp
    omega
  · simp

/-- The visibility effect changes only `loadedBatchEnd` and the seen-set, and
emits no scroll command. -/
theorem visibilityEffect_core (s : ReaderState) :
    ((visibilityEffect s).1.pageCount = s.pageCount
      ∧ (visibilityEffect s).1.savedStartPage = s.savedStartPage
      ∧ (visibilityEffect s).1.loading = s.loading
      ∧ (visibilityEffect s).1.initialScrollDone = s.initialScrollDone)
      ∧ scrollTargets (visibilityEffect s).2 = [] := by
  simp only [visibilityEffect]
  split
  · simp [scrollTargets]
  · obtain ⟨g1, g2, g3, g4, g5, g6⟩ := growBatch_fields s
    obtain ⟨⟨p1, p2, p3, p4, p5, p6⟩, p7⟩ :=
      preloadImages_core (growBatch s) (listMaxD s.visibleIndices 0)
    exact ⟨⟨p1.trans g1, p2.trans g2, p3.trans g3, p4.trans g4⟩, p7⟩

/-- Every non-restore handler preserves the restore guard's fields and emits
no scroll command. -/
theorem step_core (s : ReaderState) (e : ReaderEvent)
    (hne : e ≠ ReaderEvent.restore) :
    ((step s e).1.pageCount = s.pageCount
      ∧ (step s e).1.savedStartPage = s.savedStartPage
      ∧ (step s e).1.loading = s.loading
      ∧ (step s e).1.initialScrollDone = s.initialScrollDone)
      ∧ scrollTargets (step s e).2 = [] := by
  cases e with
  | viewable l =>
    by_cases hl : l = []
    · simp [step, onViewableItemsChanged, hl, scrollTargets]
    · simp only [step, onViewableItemsChanged, if_neg hl]
      have h := visibilityEffect_core (applyViewable s l)
      exact ⟨⟨h.1.1, h.1.2.1, h.1.2.2.1, h.1.2.2.2⟩, h.2⟩
  | visEffect => exact visibilityEffect_core s
  | endReached =>
    by_cases h : s.loadedBatchEnd < (s.pageCount : ℤ)
    · simp [step, onEndReached, h, scrollTargets]
    · simp [step, onEndReached, h, scrollTargets]
  | restore => exact absurd rfl hne

/-- When the restore guard holds, the restore timeout fires exactly one
scroll-to-index command at the saved page and latches `initialScrollDone`. -/
theorem restore_fires (s : ReaderState)
    (hg : s.loading = false ∧ 0 < s.pageCount ∧ s.initialScrollDone = false
      ∧ 0 < s.savedStartPage) :
    (step s ReaderEvent.restore).1.pageCount = s.pageCount
      ∧ (step s ReaderEvent.restore).1.savedStartPage = s.savedStartPage
      ∧ (step s ReaderEvent.restore).1.loading = s.loading
      ∧ (step s ReaderEvent.restore).1.initialScrollDone = true
      ∧ scrollTargets (step s ReaderEvent.restore).2 = [s.savedStartPage] := by
  simp [step, restoreTimeout, hg, scrollTargets]

/-- When the restore guard fails, the restore timeout is a no-op. -/
theorem restore_skips (s : ReaderState)
    (hg : ¬ (s.loading = false ∧ 0 < s.pageCount ∧ s.initialScrollDone = false
      ∧ 0 < s.savedStartPage)) :
    step s ReaderEvent.restore = (s, []) := by
  simp [step, restoreTimeout, hg]

/-- Once `initialScrollDone` is latched, no run of events ever emits another
scroll-to-index command. -/
theorem run_scroll_done (es : List ReaderEvent) (s : ReaderState)
    (hd : s.initialScrollDone = true) :
    scrollTargets (run s es).2 = [] := by
  induction es generalizing s with
  | nil => simp [run, scrollTargets]
  | cons e rest ih =>
    simp only [run]
    rw [scrollTargets_append]
    by_cases he : e = ReaderEvent.restore
    · subst he
      have hg : ¬ (s.loading = false ∧ 0 < s.pageCount ∧ s.initialScrollDone = false
          ∧ 0 < s.savedStartPage) := by
        simp [hd]
      rw [restore_skips s hg]
      simpa [scrollTargets] using ih s hd
    · obtain ⟨⟨h1, h2, h3, h4⟩, h5⟩ := step_core s e he
      rw [h5]
      simpa using ih (step s e).1 (h4.trans hd)

/-- From a state in which the restore is pending (guard satisfied), any run of
events emits the scroll-to-index command for the saved page exactly once if the
restore timeout occurs in the run, and never otherwise. -/
theorem run_scroll_pending (es : List ReaderEvent) (s : ReaderState)
    (hd : s.initialScrollDone = false) (hl : s.loading = false)
    (hN : 0 < s.pageCount) (hp : 0 < s.savedStartPage) :
    scrollTargets (run s es).2
      = if ReaderEvent.restore ∈ es then [s.savedStartPage] else [] := by
  induction es generalizing s with
  | nil => simp [run, scrollTargets]
  | cons e rest ih =>
    simp only [run]
    rw [scrollTargets_append]
    by_cases he : e = ReaderEvent.restore
    · subst he
      obtain ⟨h1, h2, h3, h4, h5⟩ := restore_fires s ⟨hl, hN, hd, hp⟩
      rw [h5, run_scroll_done rest _ h4]
      simp
    · obtain ⟨⟨h1, h2, h3, h4⟩, h5⟩ := step_core s e he
      rw [h5]
      have hrec := ih (step s e).1 (h4.trans hd) (h3.trans hl)
        (h1 ▸ hN) (h2 ▸ hp)
      rw [hrec, h2]
      have he' : ReaderEvent.restore ≠ e := fun hcontra => he hcontra.symm
      simp [List.mem_cons, he']

/-- C6: loading 20 pages with saved progress at page 12 seeds
`loadedBatchEnd = 16 ≥ 16` and the visible window to exactly `{11, 12, 13}`;
the load itself issues no scroll command, and across every subsequent run of
scheduler events exactly one `scrollToIndex(12)` command is emitted when the
restore timeout (the first-layout scroll restore) occurs in the run, and none
otherwise. -/
theorem restore_scroll_once (es : List ReaderEvent) :
    16 ≤ (loadChapter 20 12).1.loadedBatchEnd
      ∧ (loadChapter 20 12).1.visibleIndices = [11, 12, 13]
      ∧ scrollTargets (loadChapter 20 12).2 = []
      ∧ scrollTargets (run (loadChapter 20 12).1 es).2
          = if ReaderEvent.restore ∈ es then [12] else [] := by
  refine ⟨by decide, by decide, by decide, ?_⟩
  have h := run_scroll_pending es (loadChapter 20 12).1 (by decide) (by decide)
    (by decide) (by decide)
  rw [h]
  have hsp : (loadChapter 20 12).1.savedStartPage = 12 := by decide
  rw [hsp]

/-! ### Prefetch deduplication -/

/-- Core property of the preload loop: the emitted prefetch indices are
pairwise distinct fresh candidates, every emitted index is recorded in the
seen-set, and the seen-set only grows. -/
theorem preloadLoop_prefetch (cand : List ℤ) (s : ReaderState) :
    (prefetchTargets (preloadLoop s cand).2).Nodup
      ∧ (∀ i ∈ prefetchTargets (preloadLoop s cand).2,
          i ∈ (preloadLoop s cand).1.preloaded ∧ i ∉ s.preloaded ∧ i ∈ cand)
      ∧ (∀ i ∈ s.preloaded, i ∈ (preloadLoop s cand).1.preloaded) := by
  induction cand generalizing s with
  | nil => simp [preloadLoop, prefetchTargets]
  | cons i rest ih =>
    by_cases h : i ∈ s.preloaded
    · simp only [preloadLoop, if_pos h]
      obtain ⟨ha, hb, hc⟩ := ih s
      exact ⟨ha,
        fun j hj => ⟨(hb j hj).1, (hb j hj).2.1,
          List.mem_cons_of_mem _ (hb j hj).2.2⟩,
        hc⟩
    · simp only [preloadLoop, if_neg h]
      obtain ⟨ha, hb, hc⟩ := ih { s with preloaded := i :: s.preloaded }
      have htargets : prefetchTargets
          (Command.prefetch i
            :: (preloadLoop { s with preloaded := i :: s.preloaded } rest).2)
          = i :: prefetchTargets
              (preloadLoop { s with preloaded := i :: s.preloaded } rest).2 := by
        simp [prefetchTargets]
      refine ⟨?_, ?_, ?_⟩
      · rw [htargets, List.nodup_cons]
        refine ⟨fun hmem => ?_, ha⟩
        exact (hb i hmem).2.1 (by simp)
      · rw [htargets]
        intro j hj
        rcases List.mem_cons.mp hj with rfl | hj'
        · exact ⟨hc j (by simp), h, by simp⟩
        · refine ⟨(hb j hj').1, fun hjs => (hb j hj').2.1 (by simp [hjs]), ?_⟩
          exact List.mem_cons_of_mem _ (hb j hj').2.2
      · intro j hj
        exact hc j (by simp [hj])

/-- Lifted `preloadImages` version of `preloadLoop_prefetch`, with candidates
characterised by the window `(currentMax, currentMax + PRELOAD_AHEAD_COUNT]`
clipped to the sequence bounds. -/
theorem preloadImages_prefetch (s : ReaderState) (m : ℤ) :
    (prefetchTargets (preloadImages s m).2).Nodup
      ∧ (∀ i ∈ prefetchTargets (preloadImages s m).2,
          i ∈ (preloadImages s m).1.preloaded ∧ i ∉ s.preloaded
            ∧ i ∈ preloadCandidates s.pageCount m)
      ∧ (∀ i ∈ s.preloaded, i ∈ (preloadImages s m).1.preloaded) :=
  preloadLoop_prefetch _ s

/-- Membership in the candidate window of `preloadImages`. -/
theorem mem_preloadCandidates (N : ℕ) (m i : ℤ) :
    i ∈ preloadCandidates N m
      ↔ m < i ∧ i ≤ m + (PRELOAD_AHEAD_COUNT : ℤ) ∧ i < (N : ℤ) := by
  unfold preloadCandidates PRELOAD_AHEAD_COUNT
  rw [List.mem_filter]
  constructor
  · rintro ⟨hmap, hlt⟩
    rw [decide_eq_true_eq] at hlt
    rw [List.mem_map] at hmap
    obtain ⟨k, hk, rfl⟩ := hmap
    rw [List.mem_range] at hk
    exact ⟨by omega, by omega, hlt⟩
  · rintro ⟨h1, h2, h3⟩
    refine ⟨?_, by rw [decide_eq_true_eq]; exact h3⟩
    rw [List.mem_map]
    refine ⟨(i - m - 1).toNat, ?_, by omega⟩
    rw [List.mem_range]
    omega

/-- Each step preserves the dedup invariant: emitted prefetch indices are
distinct, fresh, and recorded; the seen-set only grows. -/
theorem step_prefetch (s : ReaderState) (e : ReaderEvent) :
    (prefetchTargets (step s e).2).Nodup
      ∧ (∀ i ∈ prefetchTargets (step s e).2,
          i ∈ (step s e).1.preloaded ∧ i ∉ s.preloaded)
      ∧ (∀ i ∈ s.preloaded, i ∈ (step s e).1.preloaded) := by
  have hvis : ∀ t : ReaderState, t.preloaded = s.preloaded →
      (prefetchTargets (visibilityEffect t).2).Nodup
        ∧ (∀ i ∈ prefetchTargets (visibilityEffect t).2,
            i ∈ (visibilityEffect t).1.preloaded ∧ i ∉ s.preloaded)
        ∧ (∀ i ∈ s.preloaded, i ∈ (visibilityEffect t).1.preloaded) := by
    intro t ht
    simp only [visibilityEffect]
    split
    · simp [prefetchTargets, ← ht]
    · obtain ⟨ha, hb, hc⟩ :=
        preloadImages_prefetch (growBatch t) (listMaxD t.visibleIndices 0)

      have hg : (growBatch t).preloaded = t.preloaded := (growBatch_fields t).2.2.2.2.2
      rw [hg, ht] at hb hc
      exact ⟨ha, fun i hi => ⟨(hb i hi).1, (hb i hi).2.1⟩, hc⟩
  cases e with
  | viewable l =>
    by_cases hl : l = []
    · simp [step, onViewableItemsChanged, hl, prefetchTargets]
    · simp only [step, onViewableItemsChanged, if_neg hl]
      exact hvis _ rfl
  | visEffect => exact hvis s rfl
  | endReached =>
    by_cases h : s.loadedBatchEnd < (s.pageCount : ℤ)
    · simp [step, onEndReached, h, prefetchTargets]
    · simp [step, onEndReached, h, prefetchTargets]
  | restore =>
    by_cases hg : s.loading = false ∧ 0 < s.pageCount ∧ s.initialScrollDone = false
        ∧ 0 < s.savedStartPage
    · simp [step, restoreTimeout, hg, prefetchTargets]
    · simp [step, restoreTimeout, hg, prefetchTargets]

/-- Across any run of scheduler events, each page index is prefetched at most
once (the emitted prefetch indices are pairwise distinct), every emitted index
ends up in the seen-set, and the seen-set only grows. -/
theorem run_prefetch (es : List ReaderEvent) (s : ReaderState) :
    (prefetchTargets (run s es).2).Nodup
      ∧ (∀ i ∈ prefetchTargets (run s es).2,
          i ∈ (run s es).1.preloaded ∧ i ∉ s.preloaded)
      ∧ (∀ i ∈ s.preloaded, i ∈ (run s es).1.preloaded) := by
  induction es generalizing s with
  | nil => simp [run, prefetchTargets]
  | cons e rest ih =>
    simp only [run]
    rw [prefetchTargets_append]
    obtain ⟨sa, sb, sc⟩ := step_prefetch s e
    obtain ⟨ra, rb, rc⟩ := ih (step s e).1
    refine ⟨?_, ?_, ?_⟩
    · rw [List.nodup_append]
      refine ⟨sa, ra, ?_⟩
      intro x hxa hxb
      exact (rb x hxb).2 ((sb x hxa).1)
    · intro i hi
      rcases List.mem_append.mp hi with hia | hib
      · exact ⟨rc i (sb i hia).1, (sb i hia).2⟩
      · exact ⟨(rb i hib).1, fun his => (rb i hib).2 (sc i his)⟩
    · intro i hi
      exact rc i (sc i hi)

/-- C7 counterexample: in a session that loads 20 pages with no saved
progress, `loadChapter` prefetches pages 0, 1, 2 without recording them in the
seen-set; the first visibility event (visible set `{0, 1}`, so
`maxVisible = 1`) then prefetches pages 2..6 — page 2 is prefetched twice in
the session, refuting "each source index is prefetched at most once per
session". The load-time prefetch of page 0 also lies outside every window
`(maxVisible, maxVisible + 5]` since `maxVisible ≥ 0`. -/
theorem prefetch_duplicate_counterexample :
    (prefetchTargets ((loadChapter 20 0).2
        ++ (run (loadChapter 20 0).1 [ReaderEvent.viewable [0, 1]]).2)).count 2 = 2
      ∧ Command.prefetch 0 ∈ (loadChapter 20 0).2 := by
  constructor
  · decide
  · decide

/-- C7 (amended): restricted to the visibility-driven `preloadImages` path,
the claim holds: across every run of scheduler events each source index is
prefetched at most once (deduplicated via the `preloadedRef` seen-set), and a
visibility event with viewable set `l` prefetches only indices in the window
`(maxVisible, maxVisible + PRELOAD_AHEAD_COUNT]` that are within the sequence
bounds, where `maxVisible = Math.max(...l, 0)`. The `loadChapter` initial
prefetch of the first `min(3, N)` pages bypasses the seen-set, so those
indices may be fetched a second time. -/
theorem prefetch_dedup_and_range (s : ReaderState) (es : List ReaderEvent)
    (l : List ℤ) (i : ℤ) :
    (prefetchTargets (run s es).2).Nodup
      ∧ (Command.prefetch i ∈ (step s (ReaderEvent.viewable l)).2 →
          listMaxD l 0 < i ∧ i ≤ listMaxD l 0 + (PRELOAD_AHEAD_COUNT : ℤ)
            ∧ i < (s.pageCount : ℤ)) := by
  refine ⟨(run_prefetch es s).1, fun hmem => ?_⟩
  by_cases hl : l = []
  · simp [step, onViewableItemsChanged, hl] at hmem
  · simp only [step, onViewableItemsChanged, if_neg hl] at hmem
    revert hmem
    simp only [visibilityEffect]
    split
    · intro hmem
      simp at hmem
    · intro hmem
      have hc := ((preloadImages_prefetch (growBatch (applyViewable s l))
          (listMaxD l 0)).2.1 i (mem_prefetchTargets _ i hmem)).2.2
      rw [mem_preloadCandidates] at hc
      have hpc : (growBatch (applyViewable s l)).pageCount = s.pageCount :=
        (growBatch_fields (applyViewable s l)).1
      rw [hpc] at hc
      exact hc

/-- Witness for `prefetch_dedup_and_range`: after loading 20 pages, a
visibility event with viewable set `{0, 1}` prefetches page 2, which lies in
the window `(1, 6]` and within bounds; the run's prefetch indices are
pairwise distinct. -/
theorem prefetch_dedup_and_range_witness :
    (prefetchTargets
        (run (loadChapter 20 0).1 [ReaderEvent.viewable [0, 1]]).2).Nodup
      ∧ (listMaxD [0, 1] 0 < 2
          ∧ (2 : ℤ) ≤ listMaxD [0, 1] 0 + (PRELOAD_AHEAD_COUNT : ℤ)
          ∧ (2 : ℤ) < ((loadChapter 20 0).1.pageCount : ℤ)) :=
  ⟨(prefetch_dedup_and_range (loadChapter 20 0).1
      [ReaderEvent.viewable [0, 1]] [0, 1] 2).1,
    (prefetch_dedup_and_range (loadChapter 20 0).1
      [ReaderEvent.viewable [0, 1]] [0, 1] 2).2 (by decide)⟩

end LiteReader

namespace VolumeScroll

/-- Commands issued by the volume-scroll input bridge (useVolumeScroll.ts):
the `onScrollUp` / `onScrollDown` callback invocations and the
`VolumeManager.setVolume(level, showUI false)` hardware reset. -/
inductive VolumeCommand
  | scrollUp
  | scrollDown
  | setVolume (level : ℚ)
deriving Repr, DecidableEq

/-- The hook's refs: `lastVolumeRef` (`null` before the first reading) and the
`isHandlingRef` re-entrancy lock. Volume levels are exact rationals standing
for the JavaScript numbers in `[0, 1]`. -/
structure VolumeState where
  lastVolume : Option ℚ
  isHandling : Bool
deriving Repr, DecidableEq

/-- Function `handleVolumeChange` (useVolumeScroll.ts lines 20-54): bail out when
disabled or while the re-entrancy lock is held; with a known last volume and
`Math.abs(volumeDiff) > 0.001`, take the lock, fire exactly one scroll command
(`scrollDown` on an increase, `scrollUp` on a decrease), reset the hardware to
the pre-change level, and return without updating `lastVolumeRef`; otherwise
(small delta, or no last volume yet) record the new level as last volume. -/
def handleVolumeChange (enabled : Bool) (s : VolumeState) (newVolume : ℚ) :
    VolumeState × List VolumeCommand :=
  if enabled = false ∨ s.isHandling = true then (s, [])
  else
    match s.lastVolume with
    | some lastVolume =>
      let volumeDiff := newVolume - lastVolume
      if 1 / 1000 < |volumeDiff| then
        ({ s with isHandling := true },
          (if 0 < volumeDiff then [VolumeCommand.scrollDown]
            else [VolumeCommand.scrollUp])
            ++ [VolumeCommand.setVolume lastVolume])
      else ({ s with lastVolume := some newVolume }, [])
    | none => ({ s with lastVolume := some newVolume }, [])

/-- C8: with volume scrolling enabled, no handling in progress and last-known
volume 0.50, a change to 0.45 fires exactly one scroll command — scroll-up,
since the delta is negative — and resets the hardware volume to 0.50 within
the same handler invocation; any delta whose absolute value does not exceed
the 0.001 noise threshold fires no command. -/
theorem volume_change_fires_once (s : VolumeState)
    (hlast : s.lastVolume = some (1 / 2)) (hidle : s.isHandling = false) :
    handleVolumeChange true s (9 / 20)
        = ({ s with isHandling := true },
            [VolumeCommand.scrollUp, VolumeCommand.setVolume (1 / 2)])
      ∧ ∀ v : ℚ, |v - 1 / 2| ≤ 1 / 1000 →
          (handleVolumeChange true s v).2 = [] := by
  constructor
  · simp only [handleVolumeChange, hidle, hlast]
    norm_num
    rw [abs_of_pos (show (0 : ℚ) < 1 / 20 by norm_num)]
    norm_num
  · intro v hv
    simp only [handleVolumeChange, hidle, hlast]
    rw [if_neg (not_lt.mpr hv)]
    simp

/-- Witness for `volume_change_fires_once` at the concrete ref state
(last volume 0.50, lock free), with the quiet delta instantiated at
volume 0.5005 (delta exactly 0.0005). -/
theorem volume_change_fires_once_witness :
    (handleVolumeChange true ⟨some (1 / 2), false⟩ (9 / 20)
        = (⟨some (1 / 2), true⟩,
            [VolumeCommand.scrollUp, VolumeCommand.setVolume (1 / 2)]))
      ∧ (handleVolumeChange true ⟨some (1 / 2), false⟩ (1001 / 2000)).2 = [] :=
  ⟨(volume_change_fires_once ⟨some (1 / 2), false⟩ rfl rfl).1,
    (volume_change_fires_once ⟨some (1 / 2), false⟩ rfl rfl).2 (1001 / 2000)
      (abs_le.mpr (by constructor <;> norm_num))⟩

end VolumeScroll

namespace Storage

/-- The `ReadingProgress` record (storage.ts lines 23-30). -/
structure ReadingProgress where
  mangaId : String
  chapterId : String
  chapterNumber : String
  page : ℤ
  totalPages : ℤ
  updatedAt : ℤ
deriving Repr, DecidableEq

/-- The key assignment `allProgress[progress.mangaId] = value` on the parsed
record object, embedded as an association-list update. -/
def setKey (m : List (String × ReadingProgress)) (key : String)
    (v : ReadingProgress) : List (String × ReadingProgress) :=
  (m.filter (fun kv => decide (kv.1 ≠ key))) ++ [(key, v)]

/-- The `try` body of `saveReadingProgress` (storage.ts lines 140-155):
read the progress blob (`AsyncStorage.getItem`), parse it when present
(`JSON.parse`, empty object otherwise), assign the entry with a fresh
`updatedAt`, serialise and write it back (`AsyncStorage.setItem`). The three
fallible primitives are passed in as oracles returning success or a thrown
error. -/
def saveReadingProgressBody (getItem : Except String (Option String))
    (parse : String → Except String (List (String × ReadingProgress)))
    (setItem : String → Except String Unit)
    (stringify : List (String × ReadingProgress) → String)
    (now : ℤ) (progress : ReadingProgress) : Except String Unit := do
  let data ← getItem
  let allProgress ←
    match data with
    | some str => parse str
    | none => pure []
  let updated := setKey allProgress progress.mangaId { progress with updatedAt := now }
  setItem (stringify updated)

/-- Function `saveReadingProgress` (storage.ts lines 139-158): the body runs inside
`try`/`catch`; a thrown error is only logged (`console.error`) and the
function returns normally. -/
def saveReadingProgress (getItem : Except String (Option String))
    (parse : String → Except String (List (String × ReadingProgress)))
    (setItem : String → Except String Unit)
    (stringify : List (String × ReadingProgress) → String)
    (now : ℤ) (progress : ReadingProgress) : Except String Unit :=
  match saveReadingProgressBody getItem parse setItem stringify now progress with
  | Except.ok u => Except.ok u
  | Except.error _ => Except.ok ()

/-- C9: for every reading-progress value and every outcome of the underlying
storage read, JSON parse, and storage write — including any of them failing —
`saveReadingProgress` swallows the failure and returns normally, so a
progress-save failure never propagates to the caller and never interrupts
reading. -/
theorem saveReadingProgress_never_fails (getItem : Except String (Option String))
    (parse : String → Except String (List (String × ReadingProgress)))
    (setItem : String → Except String Unit)
    (stringify : List (String × ReadingProgress) → String)
    (now : ℤ) (progress : ReadingProgress) :
    saveReadingProgress getItem parse setItem stringify now progress
      = Except.ok () := by
  unfold saveReadingProgress
  split
  · rename_i u heq
    cases u
    rfl
  · rfl

end Storage
